import Mathlib

/-!
Verification of the event-routing / player-registry core of the
bf6-portal-scripting-template repository.

The embedding covers:
* `CorePlayer_APlayer` (src/Core/Player/APlayer.ts): the logical player
  wrapper with its listener list and `emit`;
* `CorePlayer_APlayerManager` (src/Core/Player/APlayerManager.ts): the
  registry (`players : Map<number, APlayer>`) with `addPlayer`,
  `removePlayer`, `get`, `getById`, `tick`;
* `Core_AGameMode._internal` (src/Core/AGameMode.ts): the router entry
  points, modelled as functions from a mode state and engine arguments to
  an optional (state, effect-trace) pair, `none` standing for a thrown
  JavaScript `TypeError` (access to the uninitialized `playerManager`);
* the mode-level listener bus (`addListener` / `removeListener` / `emit`
  on `Core_AGameMode`).

JavaScript reference identity of `APlayer` objects is modelled by a
per-object `uid` allocated from a counter; all created objects live in a
`heap` list and the registry maps the host id to the `uid`.  Observable
behaviour (listener-callback invocations, protected-hook invocations) is
modelled as a trace of `Eff` values in execution order.
-/

namespace BF6

/-- Engine player handle (`mod.Player`): an opaque host reference together
with the two black-box collaborator queries the core uses:
`mod.GetObjId` (stable integer id) and `mod.IsPlayerValid` (liveness). -/
structure Player where
  objId : Nat
  valid : Bool
deriving DecidableEq, Repr

/-- Model of `mod.GetObjId`. -/
def GetObjId (p : Player) : Nat := p.objId

/-- Model of `mod.IsPlayerValid`. -/
def IsPlayerValid (p : Player) : Bool := p.valid

/-- Names of the events / capabilities / hooks used by the router
(`CorePlayer_IPlayerEvents`, `CorePlayer_IGameModeEvents` and the
protected hooks of `Core_AGameMode`). -/
inductive EvtName where
  | OnPlayerJoinGame
  | OnPlayerLeaveGame
  | OnPlayerDeployed
  | OnPlayerDied
  | OnPlayerUndeploy
  | OnPlayerDamaged
  | OnPlayerEarnedKill
  | OnPlayerEarnedKillAssist
  | OnMandown
  | OnRevived
  | OnPlayerInteract
  | OnPlayerEnterAreaTrigger
  | OnPlayerExitAreaTrigger
  | OnPlayerEnterCapturePoint
  | OnPlayerExitCapturePoint
  | OnPlayerEnterVehicle
  | OnPlayerExitVehicle
  | OnPlayerEnterVehicleSeat
  | OnPlayerExitVehicleSeat
  | OnPlayerSwitchTeam
  | OnPlayerUIButtonEvent
  | OnRayCastHit
  | OnRayCastMissed
  | OnSpawnerSpawned
  | OnAIMoveToFailed
  | OnAIMoveToRunning
  | OnAIMoveToSucceeded
  | OnAIWaypointIdleFailed
  | OnAIWaypointIdleRunning
  | OnAIWaypointIdleSucceeded
  | OnAIParachuteRunning
  | OnAIParachuteSucceeded
  | OngoingPlayer
  | OngoingGlobal
deriving DecidableEq, Repr

/-- A subscriber registration (an object literal of optional named
callbacks).  `id` models the JavaScript object identity of the literal
(`removeListener` compares with `!==`); `caps` is the set of event names
for which the literal actually supplies a function. -/
structure Listener where
  id : Nat
  caps : List EvtName
deriving DecidableEq, Repr

/-- Argument values carried by an event dispatch: a logical player
(identified by its heap `uid`), an optional logical player (`undefined`
modelled as `none`), or an opaque engine value (damage types, weapon
unlocks, trigger handles, ... — irrelevant to the routing logic). -/
inductive Arg where
  | lp (uid : Nat)
  | optLp (uid : Option Nat)
  | nat (n : Nat)
deriving DecidableEq, Repr

/-- An observable effect of a dispatch, in execution order:
`pcb target listener e args` is the invocation of callback `e` of
subscriber `listener` on the logical player `target`;
`mcb listener e args` is the invocation of callback `e` of mode-level
subscriber `listener`; `hook e args` is the invocation of the protected
hook `e` of the game mode. -/
inductive Eff where
  | pcb (target : Nat) (listener : Nat) (e : EvtName) (args : List Arg)
  | mcb (listener : Nat) (e : EvtName) (args : List Arg)
  | hook (e : EvtName) (args : List Arg)
deriving DecidableEq, Repr

/-- Logical player (`CorePlayer_APlayer`): `uid` is the JavaScript object
identity, `pid` the host id of the wrapped handle (immutable after
creation), `listeners` the subscriber list. -/
structure CorePlayer_APlayer where
  uid : Nat
  pid : Nat
  listeners : List Listener
deriving DecidableEq, Repr

/-- Model of `CorePlayer_APlayer.emit`: invoke, in subscription order, the
callback named `e` on every listener that implements it (the
`typeof fn === 'function'` test); listeners without that capability are
skipped.  Callback bodies are opaque, so the result is the invocation
trace. -/
def CorePlayer_APlayer.emit (lp : CorePlayer_APlayer) (e : EvtName)
    (args : List Arg) : List Eff :=
  (lp.listeners.filter (fun l => l.caps.contains e)).map
    (fun l => Eff.pcb lp.uid l.id e args)

/-- Lookup in a JavaScript `Map` modelled as an insertion-ordered
association list (`Map.prototype.get`). -/
def mapGet (m : List (Nat × Nat)) (k : Nat) : Option Nat :=
  (m.find? (fun e => e.1 = k)).map (fun e => e.2)

/-- Model of `Map.prototype.set`: replace in place if the key exists,
otherwise append (insertion order preserved). -/
def mapSet (m : List (Nat × Nat)) (k v : Nat) : List (Nat × Nat) :=
  if m.any (fun e => e.1 = k) then
    m.map (fun e => if e.1 = k then (k, v) else e)
  else
    m ++ [(k, v)]

/-- Model of `Map.prototype.delete`. -/
def mapDelete (m : List (Nat × Nat)) (k : Nat) : List (Nat × Nat) :=
  m.filter (fun e => e.1 ≠ k)

/-- Dereference a `uid` in the object heap. -/
def heapGet (h : List CorePlayer_APlayer) (u : Nat) :
    Option CorePlayer_APlayer :=
  h.find? (fun lp => lp.uid = u)

/-- Model of the mutation `lp.listeners = []` on the heap object with
identity `u` (performed by `removePlayer`). -/
def heapClear (h : List CorePlayer_APlayer) (u : Nat) :
    List CorePlayer_APlayer :=
  h.map (fun lp => if lp.uid = u then { lp with listeners := [] } else lp)

/-- Combined state of a `Core_AGameMode` instance together with the object
heap: `pmCreated` is whether `this.playerManager` has been assigned (it is
declared `playerManager!` and only assigned on the first join event);
`entries` is the manager's `players` map (host id to object identity);
`heap` holds every `CorePlayer_APlayer` ever constructed; `modeListeners`
is the mode-level bus (`Core_AGameMode.listeners`); `nextUid` is the
object-identity allocator. -/
structure GameState where
  pmCreated : Bool
  entries : List (Nat × Nat)
  heap : List CorePlayer_APlayer
  modeListeners : List Listener
  nextUid : Nat
deriving DecidableEq, Repr

/-- Values of the registry map in insertion order
(`this.players.values()`). -/
def valuesOf (entries : List (Nat × Nat)) (heap : List CorePlayer_APlayer) :
    List CorePlayer_APlayer :=
  entries.filterMap (fun e => heapGet heap e.2)

/-- Model of `CorePlayer_APlayerManager.get` (`lookupByHandle`): `none`
when the liveness check fails or the id has no entry. -/
def pmGet (s : GameState) (p : Player) : Option CorePlayer_APlayer :=
  if !(IsPlayerValid p) then none
  else (mapGet s.entries (GetObjId p)).bind (heapGet s.heap)

/-- Model of `CorePlayer_APlayerManager.getById` (`lookupById`): pure map
lookup, no liveness check. -/
def getById (s : GameState) (id : Nat) : Option CorePlayer_APlayer :=
  (mapGet s.entries id).bind (heapGet s.heap)

/-- Model of `CorePlayer_APlayerManager.addPlayer`, parametrized by the
abstract factory `createPlayer` through `newL`, the initial listener list
installed by the concrete player subclass's constructor (as a function of
the allocated object identity).  Returns the new state, the object
identity of the returned `CorePlayer_APlayer`, and the emission trace of
the join broadcast.  On the existing-entry branch nothing happens; on the
fresh branch the new player is inserted first and then every value of the
(post-insertion) map other than the new object itself (`other !== lp`)
receives `OnPlayerJoinGame` with the new player as argument. -/
def addPlayer (newL : Nat → List Listener) (s : GameState) (p : Player) :
    GameState × Nat × List Eff :=
  let id := GetObjId p
  match mapGet s.entries id with
  | some u => (s, u, [])
  | none =>
      let lp : CorePlayer_APlayer := ⟨s.nextUid, id, newL s.nextUid⟩
      let entries2 := mapSet s.entries id lp.uid
      let heap2 := s.heap ++ [lp]
      let s2 : GameState :=
        { s with entries := entries2, heap := heap2, nextUid := s.nextUid + 1 }
      let effs := (valuesOf entries2 heap2).flatMap
        (fun other =>
          if other.uid ≠ lp.uid then
            other.emit EvtName.OnPlayerJoinGame [Arg.lp lp.uid]
          else [])
      (s2, lp.uid, effs)

/-- Model of `CorePlayer_APlayerManager.removePlayer`: if an entry exists,
the stored object's listener list is emptied (`lp.listeners = []`), then
the entry is deleted; deletion of an absent key is a no-op. -/
def removePlayer (s : GameState) (pid : Nat) : GameState :=
  let h :=
    match mapGet s.entries pid with
    | some u => heapClear s.heap u
    | none => s.heap
  { s with heap := h, entries := mapDelete s.entries pid }

/-- Model of `CorePlayer_APlayerManager.tick`: re-resolve the handle and
emit `OngoingPlayer` on the resolved player, or do nothing. -/
def pmTick (s : GameState) (p : Player) : List Eff :=
  match pmGet s p with
  | some lp => lp.emit EvtName.OngoingPlayer []
  | none => []

/-- Model of `Core_AGameMode.emit` (mode-level listener bus). -/
def modeEmit (s : GameState) (e : EvtName) (args : List Arg) : List Eff :=
  (s.modeListeners.filter (fun l => l.caps.contains e)).map
    (fun l => Eff.mcb l.id e args)

/-- Common shape of every single-player router entry point
(`_internal.OnPlayerDeployed` and its ~20 siblings):
`const lp = this.lp(eventPlayer); if (!lp) return;
this.playerManager.OnX(lp, extra...); this.OnX(lp, extra...)`.
The manager method is `lp.emit(e, extra...)`.  When `playerManager` is
still unassigned, `this.lp` dereferences `undefined` and a `TypeError` is
thrown (`none`). -/
def singleEntry (e : EvtName) (extra : List Arg) (s : GameState)
    (p : Player) : Option (GameState × List Eff) :=
  if !s.pmCreated then none
  else
    match pmGet s p with
    | none => some (s, [])
    | some lp =>
        some (s, lp.emit e extra ++ [Eff.hook e (Arg.lp lp.uid :: extra)])

/-- Common shape of every two-player router entry point
(`_internal.OnPlayerDamaged` and its 5 siblings): the acting player is
required (`if (!lp) return`), the other player is resolved through the
same `lookupByHandle` but absence is passed on as `undefined`. -/
def twoEntry (e : EvtName) (extra : List Arg) (s : GameState)
    (p other : Player) : Option (GameState × List Eff) :=
  if !s.pmCreated then none
  else
    match pmGet s p with
    | none => some (s, [])
    | some lp =>
        let o := Arg.optLp ((pmGet s other).map (fun x => x.uid))
        some (s, lp.emit e (o :: extra) ++
          [Eff.hook e (Arg.lp lp.uid :: o :: extra)])

/-- Model of `_internal.OngoingGlobal`: fan out on the mode-level bus,
then invoke the protected hook. -/
def internalOngoingGlobal (s : GameState) : Option (GameState × List Eff) :=
  some (s, modeEmit s EvtName.OngoingGlobal [] ++
    [Eff.hook EvtName.OngoingGlobal []])

/-- Model of `_internal.OngoingPlayer`: unlike the other single-player
entry points this one explicitly guards `if (!this.playerManager) return`,
so it never throws. -/
def internalOngoingPlayer (s : GameState) (p : Player) :
    Option (GameState × List Eff) :=
  if !s.pmCreated then some (s, [])
  else
    match pmGet s p with
    | none => some (s, [])
    | some lp =>
        some (s, pmTick s p ++ [Eff.hook EvtName.OngoingPlayer [Arg.lp lp.uid]])

/-- Model of `_internal.OnPlayerJoinGame`: create the manager lazily on
first call (a fresh empty map), then `addPlayer`, then the join hook with
the returned player. -/
def internalOnPlayerJoinGame (newL : Nat → List Listener) (s : GameState)
    (p : Player) : Option (GameState × List Eff) :=
  let s1 := if !s.pmCreated then
      { s with pmCreated := true, entries := [] }
    else s
  let r := addPlayer newL s1 p
  some (r.1, r.2.2 ++ [Eff.hook EvtName.OnPlayerJoinGame [Arg.lp r.2.1]])

/-- Model of `_internal.OnPlayerLeaveGame`: resolve by id; if resolvable,
invoke the leave hook with the still-registered player; then
`removePlayer`.  Accessing the unassigned manager throws (`none`). -/
def internalOnPlayerLeaveGame (s : GameState) (n : Nat) :
    Option (GameState × List Eff) :=
  if !s.pmCreated then none
  else
    let hookEffs :=
      match getById s n with
      | some lp => [Eff.hook EvtName.OnPlayerLeaveGame [Arg.lp lp.uid]]
      | none => []
    some (removePlayer s n, hookEffs)

/-- Router instance: `_internal.OnPlayerDeployed`. -/
def internalOnPlayerDeployed (s : GameState) (p : Player) :
    Option (GameState × List Eff) :=
  singleEntry EvtName.OnPlayerDeployed [] s p

/-- Router instance: `_internal.OnPlayerUndeploy`. -/
def internalOnPlayerUndeploy (s : GameState) (p : Player) :
    Option (GameState × List Eff) :=
  singleEntry EvtName.OnPlayerUndeploy [] s p

/-- Router instance: `_internal.OnPlayerInteract`. -/
def internalOnPlayerInteract (s : GameState) (p : Player) (pt : Nat) :
    Option (GameState × List Eff) :=
  singleEntry EvtName.OnPlayerInteract [Arg.nat pt] s p

/-- Router instance: `_internal.OnPlayerEnterAreaTrigger`. -/
def internalOnPlayerEnterAreaTrigger (s : GameState) (p : Player) (t : Nat) :
    Option (GameState × List Eff) :=
  singleEntry EvtName.OnPlayerEnterAreaTrigger [Arg.nat t] s p

/-- Router instance: `_internal.OnPlayerExitAreaTrigger`. -/
def internalOnPlayerExitAreaTrigger (s : GameState) (p : Player) (t : Nat) :
    Option (GameState × List Eff) :=
  singleEntry EvtName.OnPlayerExitAreaTrigger [Arg.nat t] s p

/-- Router instance: `_internal.OnPlayerEnterCapturePoint`. -/
def internalOnPlayerEnterCapturePoint (s : GameState) (p : Player) (c : Nat) :
    Option (GameState × List Eff) :=
  singleEntry EvtName.OnPlayerEnterCapturePoint [Arg.nat c] s p

/-- Router instance: `_internal.OnPlayerExitCapturePoint`. -/
def internalOnPlayerExitCapturePoint (s : GameState) (p : Player) (c : Nat) :
    Option (GameState × List Eff) :=
  singleEntry EvtName.OnPlayerExitCapturePoint [Arg.nat c] s p

/-- Router instance: `_internal.OnPlayerEnterVehicle`. -/
def internalOnPlayerEnterVehicle (s : GameState) (p : Player) (v : Nat) :
    Option (GameState × List Eff) :=
  singleEntry EvtName.OnPlayerEnterVehicle [Arg.nat v] s p

/-- Router instance: `_internal.OnPlayerExitVehicle`. -/
def internalOnPlayerExitVehicle (s : GameState) (p : Player) (v : Nat) :
    Option (GameState × List Eff) :=
  singleEntry EvtName.OnPlayerExitVehicle [Arg.nat v] s p

/-- Router instance: `_internal.OnPlayerEnterVehicleSeat`. -/
def internalOnPlayerEnterVehicleSeat (s : GameState) (p : Player)
    (v seat : Nat) : Option (GameState × List Eff) :=
  singleEntry EvtName.OnPlayerEnterVehicleSeat [Arg.nat v, Arg.nat seat] s p

/-- Router instance: `_internal.OnPlayerExitVehicleSeat`. -/
def internalOnPlayerExitVehicleSeat (s : GameState) (p : Player)
    (v seat : Nat) : Option (GameState × List Eff) :=
  singleEntry EvtName.OnPlayerExitVehicleSeat [Arg.nat v, Arg.nat seat] s p

/-- Router instance: `_internal.OnPlayerSwitchTeam`. -/
def internalOnPlayerSwitchTeam (s : GameState) (p : Player) (t : Nat) :
    Option (GameState × List Eff) :=
  singleEntry EvtName.OnPlayerSwitchTeam [Arg.nat t] s p

/-- Router instance: `_internal.OnPlayerUIButtonEvent`. -/
def internalOnPlayerUIButtonEvent (s : GameState) (p : Player)
    (w b : Nat) : Option (GameState × List Eff) :=
  singleEntry EvtName.OnPlayerUIButtonEvent [Arg.nat w, Arg.nat b] s p

/-- Router instance: `_internal.OnRayCastHit`. -/
def internalOnRayCastHit (s : GameState) (p : Player) (pt nrm : Nat) :
    Option (GameState × List Eff) :=
  singleEntry EvtName.OnRayCastHit [Arg.nat pt, Arg.nat nrm] s p

/-- Router instance: `_internal.OnRayCastMissed`. -/
def internalOnRayCastMissed (s : GameState) (p : Player) :
    Option (GameState × List Eff) :=
  singleEntry EvtName.OnRayCastMissed [] s p

/-- Router instance: `_internal.OnSpawnerSpawned`. -/
def internalOnSpawnerSpawned (s : GameState) (p : Player) (sp : Nat) :
    Option (GameState × List Eff) :=
  singleEntry EvtName.OnSpawnerSpawned [Arg.nat sp] s p

/-- Router instance: `_internal.OnAIMoveToFailed`. -/
def internalOnAIMoveToFailed (s : GameState) (p : Player) :
    Option (GameState × List Eff) :=
  singleEntry EvtName.OnAIMoveToFailed [] s p

/-- Router instance: `_internal.OnAIMoveToRunning`. -/
def internalOnAIMoveToRunning (s : GameState) (p : Player) :
    Option (GameState × List Eff) :=
  singleEntry EvtName.OnAIMoveToRunning [] s p

/-- Router instance: `_internal.OnAIMoveToSucceeded`. -/
def internalOnAIMoveToSucceeded (s : GameState) (p : Player) :
    Option (GameState × List Eff) :=
  singleEntry EvtName.OnAIMoveToSucceeded [] s p

/-- Router instance: `_internal.OnAIWaypointIdleFailed`. -/
def internalOnAIWaypointIdleFailed (s : GameState) (p : Player) :
    Option (GameState × List Eff) :=
  singleEntry EvtName.OnAIWaypointIdleFailed [] s p

/-- Router instance: `_internal.OnAIWaypointIdleRunning`. -/
def internalOnAIWaypointIdleRunning (s : GameState) (p : Player) :
    Option (GameState × List Eff) :=
  singleEntry EvtName.OnAIWaypointIdleRunning [] s p

/-- Router instance: `_internal.OnAIWaypointIdleSucceeded`. -/
def internalOnAIWaypointIdleSucceeded (s : GameState) (p : Player) :
    Option (GameState × List Eff) :=
  singleEntry EvtName.OnAIWaypointIdleSucceeded [] s p

/-- Router instance: `_internal.OnAIParachuteRunning`. -/
def internalOnAIParachuteRunning (s : GameState) (p : Player) :
    Option (GameState × List Eff) :=
  singleEntry EvtName.OnAIParachuteRunning [] s p

/-- Router instance: `_internal.OnAIParachuteSucceeded`. -/
def internalOnAIParachuteSucceeded (s : GameState) (p : Player) :
    Option (GameState × List Eff) :=
  singleEntry EvtName.OnAIParachuteSucceeded [] s p

/-- Router instance: `_internal.OnMandown`. -/
def internalOnMandown (s : GameState) (p other : Player) :
    Option (GameState × List Eff) :=
  twoEntry EvtName.OnMandown [] s p other

/-- Router instance: `_internal.OnPlayerDamaged`. -/
def internalOnPlayerDamaged (s : GameState) (p other : Player)
    (dmg weap : Nat) : Option (GameState × List Eff) :=
  twoEntry EvtName.OnPlayerDamaged [Arg.nat dmg, Arg.nat weap] s p other

/-- Router instance: `_internal.OnPlayerDied`. -/
def internalOnPlayerDied (s : GameState) (p other : Player)
    (dt weap : Nat) : Option (GameState × List Eff) :=
  twoEntry EvtName.OnPlayerDied [Arg.nat dt, Arg.nat weap] s p other

/-- Router instance: `_internal.OnPlayerEarnedKill`. -/
def internalOnPlayerEarnedKill (s : GameState) (p other : Player)
    (dt weap : Nat) : Option (GameState × List Eff) :=
  twoEntry EvtName.OnPlayerEarnedKill [Arg.nat dt, Arg.nat weap] s p other

/-- Router instance: `_internal.OnPlayerEarnedKillAssist`. -/
def internalOnPlayerEarnedKillAssist (s : GameState) (p other : Player) :
    Option (GameState × List Eff) :=
  twoEntry EvtName.OnPlayerEarnedKillAssist [] s p other

/-- Router instance: `_internal.OnRevived`. -/
def internalOnRevived (s : GameState) (p other : Player) :
    Option (GameState × List Eff) :=
  twoEntry EvtName.OnRevived [] s p other

/-- Micro-model of the JavaScript `for (const listener of this.listeners)`
loop of `emit` interacting with `removeListener` calls performed by the
invoked callbacks (identical code in `CorePlayer_APlayer` and
`Core_AGameMode`).  The loop iterates the array captured when the loop
started (first list argument) while `removeListener` rebinds the field to
a freshly filtered array (second argument, threaded through).  `beh l`
gives the listener ids that listener `l`'s callback removes when invoked.
Returns the final value of the field and the ids invoked, in order. -/
def emitRun (beh : Nat → List Nat) (e : EvtName) :
    List Listener → List Listener → List Listener × List Nat
  | [], field => (field, [])
  | l :: rest, field =>
      if l.caps.contains e then
        let field2 := (beh l.id).foldl
          (fun f rid => f.filter (fun x => x.id ≠ rid)) field
        let r := emitRun beh e rest field2
        (r.1, l.id :: r.2)
      else
        emitRun beh e rest field

/-- Fold `addPlayer` over a sequence of join events. -/
def joinAll (newL : Nat → List Listener) (s : GameState) :
    List Player → GameState
  | [] => s
  | p :: ps => joinAll newL (addPlayer newL s p).1 ps

/-- The logical players created by a sequence of fresh joins starting at
object identity `n`. -/
def newLPs (newL : Nat → List Listener) (n : Nat) :
    List Player → List CorePlayer_APlayer
  | [] => []
  | p :: ps => ⟨n, GetObjId p, newL n⟩ :: newLPs newL (n + 1) ps

/-- The registry entries created by a sequence of fresh joins starting at
object identity `n`. -/
def newEntries (n : Nat) : List Player → List (Nat × Nat)
  | [] => []
  | p :: ps => (GetObjId p, n) :: newEntries (n + 1) ps

/-- Project the mode-bus listener id out of an effect (used to state the
invocation order of the global tick fan-out). -/
def effListenerId : Eff → Option Nat
  | Eff.mcb i _ _ => some i
  | _ => none

/-- Mode state with an initialized, empty player manager. -/
def freshMode : GameState := ⟨true, [], [], [], 0⟩

/-- Mode state before the first join event: `playerManager` unassigned. -/
def initMode : GameState := ⟨false, [], [], [], 0⟩

/-- Concrete fixture: a subscriber implementing the join and deploy
capabilities (as `Example_Player`'s constructor installs). -/
def lEx : Listener := ⟨100, [EvtName.OnPlayerJoinGame, EvtName.OnPlayerDeployed]⟩

/-- Concrete fixture: logical player with host id 1 already registered. -/
def lpEx : CorePlayer_APlayer := ⟨0, 1, [lEx]⟩

/-- Concrete fixture: mode state with `lpEx` registered under id 1. -/
def sEx : GameState := ⟨true, [(1, 0)], [lpEx], [], 1⟩

/-- Concrete fixture: factory installing one listener per created player
(the `Example_Player` pattern). -/
def nlEx : Nat → List Listener :=
  fun u => [⟨100 + u, [EvtName.OnPlayerJoinGame, EvtName.OnPlayerDeployed]⟩]

/-- Concrete fixture: factory installing no listeners. -/
def nlNil : Nat → List Listener := fun _ => []

/-- Concrete fixture: two distinct valid handles joining in sequence. -/
def psEx : List Player := [⟨1, true⟩, ⟨2, true⟩]

/-- Concrete fixture: a valid handle whose id 2 is not in `sEx`. -/
def pEx2 : Player := ⟨2, true⟩

/-- Concrete fixture: mode state with three bus observers — two
implementing the global tick capability, one not. -/
def sBus : GameState :=
  ⟨true, [], [],
    [⟨10, [EvtName.OngoingGlobal]⟩, ⟨11, [EvtName.OngoingGlobal]⟩, ⟨12, []⟩], 0⟩

end BF6

namespace BF6

/-! ### Basic facts about the map and heap operations -/

theorem mapGet_cons (e : Nat × Nat) (m : List (Nat × Nat)) (k : Nat) :
    mapGet (e :: m) k = if e.1 = k then some e.2 else mapGet m k := by
  by_cases h : e.1 = k <;> simp [mapGet, List.find?_cons, h]

theorem mapGet_eq_none {m : List (Nat × Nat)} {k : Nat} :
    mapGet m k = none ↔ ∀ e ∈ m, e.1 ≠ k := by
  simp [mapGet, List.find?_eq_none]

theorem mapGet_append_of_none {m : List (Nat × Nat)} {k : Nat}
    (h : mapGet m k = none) (m2 : List (Nat × Nat)) :
    mapGet (m ++ m2) k = mapGet m2 k := by
  have h2 : m.find? (fun e => e.1 = k) = none := by
    simpa [mapGet] using h
  simp [mapGet, List.find?_append, h2]

theorem mapSet_of_none {m : List (Nat × Nat)} {k : Nat}
    (h : mapGet m k = none) (v : Nat) : mapSet m k v = m ++ [(k, v)] := by
  have h2 : m.any (fun e => e.1 = k) = false := by
    rw [List.any_eq_false]
    intro e he
    simpa using mapGet_eq_none.mp h e he
  simp [mapSet, h2]

theorem mapDelete_of_none {m : List (Nat × Nat)} {k : Nat}
    (h : mapGet m k = none) : mapDelete m k = m := by
  rw [mapDelete, List.filter_eq_self]
  intro e he
  simpa using mapGet_eq_none.mp h e he

theorem mapGet_mapDelete_self (m : List (Nat × Nat)) (k : Nat) :
    mapGet (mapDelete m k) k = none := by
  rw [mapGet_eq_none]
  intro e he
  have := (List.mem_filter.mp he).2
  simpa using this

theorem heapGet_uid {h : List CorePlayer_APlayer} {u : Nat}
    {lp : CorePlayer_APlayer} (hg : heapGet h u = some lp) : lp.uid = u := by
  simpa using List.find?_some hg

theorem heapGet_mem {h : List CorePlayer_APlayer} {u : Nat}
    {lp : CorePlayer_APlayer} (hg : heapGet h u = some lp) : lp ∈ h :=
  List.mem_of_find?_eq_some hg

theorem heapGet_eq_none_of_bound {h : List CorePlayer_APlayer} {n : Nat}
    (hb : ∀ lp ∈ h, lp.uid < n) : heapGet h n = none := by
  rw [heapGet, List.find?_eq_none]
  intro lp hm
  simpa using Nat.ne_of_lt (hb lp hm)

theorem heapGet_append_of_none {h : List CorePlayer_APlayer} {u : Nat}
    (hg : heapGet h u = none) (h2 : List CorePlayer_APlayer) :
    heapGet (h ++ h2) u = heapGet h2 u := by
  have hg2 : h.find? (fun lp => lp.uid = u) = none := hg
  simp [heapGet, List.find?_append, hg2]

theorem heapGet_heapClear_self :
    ∀ (h : List CorePlayer_APlayer) (u : Nat) (lp : CorePlayer_APlayer),
      heapGet h u = some lp →
      heapGet (heapClear h u) u = some { lp with listeners := [] } := by
  intro h
  induction h with
  | nil => intro u lp hg; simp [heapGet] at hg
  | cons x rest ih =>
      intro u lp hg
      by_cases hx : x.uid = u
      · have hlp : x = lp := by
          simpa [heapGet, List.find?_cons, hx] using hg
        subst hlp
        simp [heapClear, heapGet, List.find?_cons, hx]
      · have hg2 : heapGet rest u = some lp := by
          simpa [heapGet, List.find?_cons, hx] using hg
        have := ih u lp hg2
        simpa [heapClear, heapGet, List.find?_cons, hx] using this

theorem removePlayer_entries (s : GameState) (pid : Nat) :
    (removePlayer s pid).entries = mapDelete s.entries pid := rfl

theorem removePlayer_absent {s : GameState} {pid : Nat}
    (h : mapGet s.entries pid = none) : removePlayer s pid = s := by
  unfold removePlayer
  rw [h, mapDelete_of_none h]

theorem getById_removePlayer (s : GameState) (n : Nat) :
    getById (removePlayer s n) n = none := by
  simp [getById, removePlayer_entries, mapGet_mapDelete_self]

theorem emit_mem_shape {lp : CorePlayer_APlayer} {e : EvtName}
    {args : List Arg} {eff : Eff} (h : eff ∈ lp.emit e args) :
    ∃ lid, eff = Eff.pcb lp.uid lid e args := by
  rw [CorePlayer_APlayer.emit] at h
  obtain ⟨l, _, hl⟩ := List.mem_map.mp h
  exact ⟨l.id, hl.symm⟩

end BF6

namespace BF6

/-! ### Claim theorems: remove semantics, duplicate join, dropped events -/

/-- C8.  Remove semantics and idempotence: when an entry for `pid` exists
(mapping to the object `lp`), `removePlayer` empties that object's
listener list (so no further callbacks can fire through it) and deletes
the registry entry; when no entry exists it is a no-op returning the state
unchanged; consequently calling it twice in a row has the same observable
effect on the registry and on all logical players as calling it once. -/
theorem removePlayer_detach_idempotent :
    (∀ (s : GameState) (pid u : Nat) (lp : CorePlayer_APlayer),
       mapGet s.entries pid = some u → heapGet s.heap u = some lp →
       mapGet (removePlayer s pid).entries pid = none ∧
       heapGet (removePlayer s pid).heap u = some { lp with listeners := [] }) ∧
    (∀ (s : GameState) (pid : Nat),
       mapGet s.entries pid = none → removePlayer s pid = s) ∧
    (∀ (s : GameState) (pid : Nat),
       removePlayer (removePlayer s pid) pid = removePlayer s pid) := by
  refine ⟨?_, ?_, ?_⟩
  · intro s pid u lp hm hh
    constructor
    · simp [removePlayer_entries, mapGet_mapDelete_self]
    · have : (removePlayer s pid).heap = heapClear s.heap u := by
        unfold removePlayer
        rw [hm]
      rw [this]
      exact heapGet_heapClear_self s.heap u lp hh
  · intro s pid h
    exact removePlayer_absent h
  · intro s pid
    apply removePlayer_absent
    simp [removePlayer_entries, mapGet_mapDelete_self]

/-- C10.  Duplicate join is side-effect free: `addPlayer` on a handle
whose id already has an entry returns the existing instance (its object
identity), leaves the whole state (registry and heap) unchanged, and
emits no notification to any logical player. -/
theorem addPlayer_duplicate_noop (newL : Nat → List Listener)
    (s : GameState) (p : Player) (u : Nat)
    (h : mapGet s.entries (GetObjId p) = some u) :
    addPlayer newL s p = (s, u, []) := by
  simp [addPlayer, h]

/-- C2 (amended).  Dropped-event safety: in every mode state where the
`PlayerManager` has been created (after the first join event), invoking
any single-player entry point — they all instantiate `singleEntry` — with
a handle that does not resolve (liveness check fails, or the id has no
registry entry) performs zero hook invocations and zero registry
mutation and raises no exception; `_internal.OngoingPlayer`, which guards
the uninitialized manager explicitly, is safe in every state. -/
theorem singleEntry_dropped_safe :
    (∀ (e : EvtName) (extra : List Arg) (s : GameState) (p : Player),
       s.pmCreated = true → pmGet s p = none →
       singleEntry e extra s p = some (s, [])) ∧
    (∀ (e : EvtName) (extra : List Arg) (s : GameState) (p : Player),
       s.pmCreated = true → IsPlayerValid p = false →
       singleEntry e extra s p = some (s, [])) ∧
    (∀ (s : GameState) (p : Player),
       pmGet s p = none → internalOngoingPlayer s p = some (s, [])) ∧
    (∀ (s : GameState) (p : Player),
       s.pmCreated = false → internalOngoingPlayer s p = some (s, [])) := by
  refine ⟨?_, ?_, ?_, ?_⟩
  · intro e extra s p hpm hget
    simp [singleEntry, hpm, hget]
  · intro e extra s p hpm hval
    simp [singleEntry, hpm, pmGet, hval]
  · intro s p hget
    by_cases hpm : s.pmCreated <;> simp [internalOngoingPlayer, hpm, hget]
  · intro s p hpm
    simp [internalOngoingPlayer, hpm]

/-- C2, counterexample to the unamended claim: before the first join event
`this.playerManager` is still unassigned (`playerManager!`), so the
unguarded single-player entry points dereference `undefined` and throw a
`TypeError` (modelled as `none`) even for a handle that fails the liveness
check — an exception is raised, contradicting "no exception in every
state of the Mode". -/
theorem singleEntry_throws_before_first_join :
    internalOnPlayerDeployed initMode ⟨0, false⟩ = none := rfl

/-- C5.  Two-player asymmetry: for every two-player entry point — they all
instantiate `twoEntry` — if the acting player's handle does not resolve
the whole event is dropped (no manager call, no hook call, state
unchanged); if only the other player's handle fails to resolve, the event
is still dispatched, with the `other` argument set to the absent marker
(`undefined`, modelled `Arg.optLp none`) in both the per-player emission
and the protected hook. -/
theorem twoEntry_actor_required_other_optional :
    (∀ (e : EvtName) (extra : List Arg) (s : GameState) (p other : Player),
       s.pmCreated = true → pmGet s p = none →
       twoEntry e extra s p other = some (s, [])) ∧
    (∀ (e : EvtName) (extra : List Arg) (s : GameState) (p other : Player)
       (lp : CorePlayer_APlayer),
       s.pmCreated = true → pmGet s p = some lp → pmGet s other = none →
       twoEntry e extra s p other =
         some (s, lp.emit e (Arg.optLp none :: extra) ++
           [Eff.hook e (Arg.lp lp.uid :: Arg.optLp none :: extra)])) := by
  constructor
  · intro e extra s p other hpm hget
    simp [twoEntry, hpm, hget]
  · intro e extra s p other lp hpm hget hother
    simp [twoEntry, hpm, hget, hother]

/-- C6.  Leave ordering and effect: with the manager created, a leave
event for id `n` whose lookup resolves to `lp` invokes the
`OnPlayerLeaveGame` hook with that still-registered `lp` (resolved from
the pre-removal registry — the hook runs before `removePlayer`, which is
why the lookup can still succeed) and then removes the entry; after the
leave event completes, `getById n` returns absent. -/
theorem leave_hook_before_remove (s : GameState) (n : Nat)
    (hpm : s.pmCreated = true) :
    (∀ lp, getById s n = some lp →
       internalOnPlayerLeaveGame s n =
         some (removePlayer s n,
           [Eff.hook EvtName.OnPlayerLeaveGame [Arg.lp lp.uid]])) ∧
    (∀ s2 tr, internalOnPlayerLeaveGame s n = some (s2, tr) →
       getById s2 n = none) := by
  constructor
  · intro lp hget
    simp [internalOnPlayerLeaveGame, hpm, hget]
  · intro s2 tr h
    rw [internalOnPlayerLeaveGame] at h
    rw [hpm] at h
    simp only [Bool.not_true, Bool.false_eq_true, if_false] at h
    have hs2 : s2 = removePlayer s n := by
      cases hby : getById s n <;> rw [hby] at h <;>
        exact (congrArg Prod.fst (Option.some.inj h)).symm
    rw [hs2]
    exact getById_removePlayer s n

end BF6

namespace BF6

/-! ### Characterization of the two branches of addPlayer -/

theorem addPlayer_existing {newL : Nat → List Listener} {s : GameState}
    {p : Player} {u : Nat} (h : mapGet s.entries (GetObjId p) = some u) :
    addPlayer newL s p = (s, u, []) := by
  simp [addPlayer, h]

theorem addPlayer_fresh (newL : Nat → List Listener) (s : GameState)
    (p : Player) (hB : mapGet s.entries (GetObjId p) = none) :
    addPlayer newL s p =
      ({ s with entries := s.entries ++ [(GetObjId p, s.nextUid)],
                heap := s.heap ++ [⟨s.nextUid, GetObjId p, newL s.nextUid⟩],
                nextUid := s.nextUid + 1 },
       s.nextUid,
       (valuesOf (s.entries ++ [(GetObjId p, s.nextUid)])
           (s.heap ++ [⟨s.nextUid, GetObjId p, newL s.nextUid⟩])).flatMap
         (fun other =>
           if other.uid ≠ s.nextUid then
             other.emit EvtName.OnPlayerJoinGame [Arg.lp s.nextUid]
           else [])) := by
  simp [addPlayer, hB, mapSet_of_none hB]

theorem addPlayer_effs_shape (newL : Nat → List Listener) (s : GameState)
    (p : Player) :
    ∀ eff ∈ (addPlayer newL s p).2.2,
      ∃ t lid args, eff = Eff.pcb t lid EvtName.OnPlayerJoinGame args := by
  intro eff hmem
  cases hm : mapGet s.entries (GetObjId p) with
  | some u =>
      rw [addPlayer_existing hm] at hmem
      simp at hmem
  | none =>
      rw [addPlayer_fresh newL s p hm] at hmem
      simp only [List.mem_flatMap] at hmem
      obtain ⟨o, _, hin⟩ := hmem
      by_cases hu : o.uid ≠ s.nextUid
      · rw [if_pos hu] at hin
        obtain ⟨lid, rfl⟩ := emit_mem_shape hin
        exact ⟨o.uid, lid, _, rfl⟩
      · rw [if_neg hu] at hin
        simp at hin

/-- C4.  Registry-update-before-hook ordering: for every router entry
point whose `PlayerManager` update emits the per-player event (all
single-player entries, all two-player entries, the guarded
`_internal.OngoingPlayer` whose update is `playerManager.tick`, and the
join entry), that update completes — its emission effects all precede —
before the protected hook executes, and the hook observes post-update
state (for join, the hook's argument is already resolvable in the
returned registry). -/
theorem pm_update_before_hook :
    (∀ (e : EvtName) (extra : List Arg) (s : GameState) (p : Player)
       (lp : CorePlayer_APlayer),
       s.pmCreated = true → pmGet s p = some lp →
       singleEntry e extra s p =
         some (s, lp.emit e extra ++ [Eff.hook e (Arg.lp lp.uid :: extra)]) ∧
       ∀ eff ∈ lp.emit e extra, ∃ lid, eff = Eff.pcb lp.uid lid e extra) ∧
    (∀ (e : EvtName) (extra : List Arg) (s : GameState) (p other : Player)
       (lp : CorePlayer_APlayer),
       s.pmCreated = true → pmGet s p = some lp →
       twoEntry e extra s p other =
         some (s,
           lp.emit e (Arg.optLp ((pmGet s other).map CorePlayer_APlayer.uid)
               :: extra) ++
             [Eff.hook e (Arg.lp lp.uid ::
               Arg.optLp ((pmGet s other).map CorePlayer_APlayer.uid)
                 :: extra)]) ∧
       ∀ eff ∈ lp.emit e
           (Arg.optLp ((pmGet s other).map CorePlayer_APlayer.uid) :: extra),
         ∃ lid, eff = Eff.pcb lp.uid lid e
           (Arg.optLp ((pmGet s other).map CorePlayer_APlayer.uid) :: extra)) ∧
    (∀ (s : GameState) (p : Player) (lp : CorePlayer_APlayer),
       s.pmCreated = true → pmGet s p = some lp →
       internalOngoingPlayer s p =
         some (s, lp.emit EvtName.OngoingPlayer [] ++
           [Eff.hook EvtName.OngoingPlayer [Arg.lp lp.uid]]) ∧
       ∀ eff ∈ lp.emit EvtName.OngoingPlayer [],
         ∃ lid, eff = Eff.pcb lp.uid lid EvtName.OngoingPlayer []) ∧
    (∀ (newL : Nat → List Listener) (s : GameState) (p : Player)
       (s2 : GameState) (tr : List Eff),
       internalOnPlayerJoinGame newL s p = some (s2, tr) →
       ∃ pre u, tr = pre ++ [Eff.hook EvtName.OnPlayerJoinGame [Arg.lp u]] ∧
         (∀ eff ∈ pre,
            ∃ t lid args, eff = Eff.pcb t lid EvtName.OnPlayerJoinGame args) ∧
         mapGet s2.entries (GetObjId p) = some u) := by
  refine ⟨?_, ?_, ?_, ?_⟩
  · intro e extra s p lp hpm hget
    refine ⟨by simp [singleEntry, hpm, hget], ?_⟩
    intro eff hmem
    exact emit_mem_shape hmem
  · intro e extra s p other lp hpm hget
    refine ⟨by simp [twoEntry, hpm, hget], ?_⟩
    intro eff hmem
    exact emit_mem_shape hmem
  · intro s p lp hpm hget
    refine ⟨by simp [internalOngoingPlayer, pmTick, hpm, hget], ?_⟩
    intro eff hmem
    exact emit_mem_shape hmem
  · intro newL s p s2 tr h
    rw [internalOnPlayerJoinGame] at h
    set s1 := if !s.pmCreated then { s with pmCreated := true, entries := [] }
      else s with hs1
    have hpair := Option.some.inj h
    have hs2 : s2 = (addPlayer newL s1 p).1 :=
      (congrArg Prod.fst hpair).symm
    have htr : tr = (addPlayer newL s1 p).2.2 ++
        [Eff.hook EvtName.OnPlayerJoinGame
          [Arg.lp (addPlayer newL s1 p).2.1]] :=
      (congrArg Prod.snd hpair).symm
    refine ⟨(addPlayer newL s1 p).2.2, (addPlayer newL s1 p).2.1, htr,
      addPlayer_effs_shape newL s1 p, ?_⟩
    rw [hs2]
    cases hm : mapGet s1.entries (GetObjId p) with
    | some u => rw [addPlayer_existing hm]; exact hm
    | none =>
        rw [addPlayer_fresh newL s1 p hm]
        rw [mapGet_append_of_none hm, mapGet_cons]
        simp

end BF6

namespace BF6

/-! ### Counting invocations in filter-map emissions -/

theorem count_capMap_zero (mk : Nat → Eff)
    (hinj : ∀ i j, mk i = mk j → i = j) (ev : EvtName) (i : Nat) :
    ∀ ls : List Listener, (∀ y ∈ ls, y.id ≠ i) →
      ((ls.filter (fun x => x.caps.contains ev)).map
        (fun x => mk x.id)).count (mk i) = 0 := by
  intro ls
  induction ls with
  | nil => intro _; rfl
  | cons x rest ih =>
      intro hne
      have hx : x.id ≠ i := hne x (by simp)
      have hrest := ih (fun y hy => hne y (by simp [hy]))
      have hmk : (mk x.id == mk i) = false := by
        rw [beq_eq_false_iff_ne]
        intro hcontra
        exact hx (hinj _ _ hcontra)
      by_cases hc : x.caps.contains ev
      · rw [@List.filter_cons_of_pos _ (fun y => y.caps.contains ev) x rest hc,
          List.map_cons, List.count_cons, hmk, hrest]
        simp
      · rw [@List.filter_cons_of_neg _ (fun y => y.caps.contains ev) x rest hc]
        exact hrest

theorem count_capMap_one (mk : Nat → Eff)
    (hinj : ∀ i j, mk i = mk j → i = j) (ev : EvtName) :
    ∀ (ls : List Listener) (l : Listener),
      (ls.map Listener.id).Nodup → l ∈ ls → l.caps.contains ev = true →
      ((ls.filter (fun x => x.caps.contains ev)).map
        (fun x => mk x.id)).count (mk l.id) = 1 := by
  intro ls
  induction ls with
  | nil => intro l _ hl _; simp at hl
  | cons x rest ih =>
      intro l hnd hl hc
      rw [List.map_cons, List.nodup_cons] at hnd
      rcases List.mem_cons.mp hl with rfl | hlr
      · have hz : ∀ y ∈ rest, y.id ≠ l.id := by
          intro y hy heq
          exact hnd.1 (heq ▸ List.mem_map_of_mem Listener.id hy)
        have hzero := count_capMap_zero mk hinj ev l.id rest hz
        rw [@List.filter_cons_of_pos _ (fun y => y.caps.contains ev) l rest hc,
          List.map_cons, List.count_cons, hzero]
        simp
      · have hx : x.id ≠ l.id := by
          intro heq
          exact hnd.1 (heq ▸ List.mem_map_of_mem Listener.id hlr)
        have hmk : (mk x.id == mk l.id) = false := by
          rw [beq_eq_false_iff_ne]
          intro hq
          exact hx (hinj _ _ hq)
        have hrest := ih l hnd.2 hlr hc
        by_cases hcx : x.caps.contains ev
        · rw [@List.filter_cons_of_pos _ (fun y => y.caps.contains ev) x rest
            hcx, List.map_cons, List.count_cons, hmk, hrest]
          simp
        · rw [@List.filter_cons_of_neg _ (fun y => y.caps.contains ev) x rest
            hcx]
          exact hrest

theorem nodup_listener_eq :
    ∀ (ls : List Listener), (ls.map Listener.id).Nodup →
      ∀ x ∈ ls, ∀ l ∈ ls, x.id = l.id → x = l := by
  intro ls
  induction ls with
  | nil => intro _ x hx; simp at hx
  | cons a rest ih =>
      intro hnd x hx l hl heq
      rw [List.map_cons, List.nodup_cons] at hnd
      rcases List.mem_cons.mp hx with rfl | hx2
      · rcases List.mem_cons.mp hl with rfl | hl2
        · rfl
        · exact absurd (heq.symm ▸ List.mem_map_of_mem Listener.id hl2) hnd.1
      · rcases List.mem_cons.mp hl with rfl | hl2
        · exact absurd (heq ▸ List.mem_map_of_mem Listener.id hx2) hnd.1
        · exact ih hnd.2 x hx2 l hl2 heq

theorem filterMap_total {α β : Type} (f : α → Option β) (g : α → β)
    (hfg : ∀ a, f a = some (g a)) : ∀ l : List α, l.filterMap f = l.map g := by
  intro l
  induction l with
  | nil => rfl
  | cons a as ih => rw [List.filterMap_cons, hfg a, List.map_cons, ih]

/-- C7.  Global tick fan-out order: the global periodic tick first
publishes on the mode-level bus — each subscribed observer implementing
the `OngoingGlobal` capability is invoked exactly once, in subscription
order, and observers not implementing it are silently skipped — and only
then runs the protected `OngoingGlobal` hook (the hook effect is the last
element of the trace, after the whole fan-out). -/
theorem ongoingGlobal_fanout (s : GameState)
    (hN : (s.modeListeners.map Listener.id).Nodup) :
    internalOngoingGlobal s =
      some (s, modeEmit s EvtName.OngoingGlobal [] ++
        [Eff.hook EvtName.OngoingGlobal []]) ∧
    ((modeEmit s EvtName.OngoingGlobal []).filterMap effListenerId =
      (s.modeListeners.filter
        (fun l => l.caps.contains EvtName.OngoingGlobal)).map Listener.id) ∧
    (∀ l ∈ s.modeListeners, l.caps.contains EvtName.OngoingGlobal = true →
       (modeEmit s EvtName.OngoingGlobal []).count
         (Eff.mcb l.id EvtName.OngoingGlobal []) = 1) ∧
    (∀ l ∈ s.modeListeners, l.caps.contains EvtName.OngoingGlobal = false →
       ∀ e args, Eff.mcb l.id e args ∉ modeEmit s EvtName.OngoingGlobal []) := by
  refine ⟨rfl, ?_, ?_, ?_⟩
  · rw [modeEmit, List.filterMap_map]
    exact filterMap_total _ Listener.id (fun a => rfl) _
  · intro l hl hc
    rw [modeEmit]
    exact count_capMap_one (fun i => Eff.mcb i EvtName.OngoingGlobal [])
      (fun i j h => by simpa using h) EvtName.OngoingGlobal
      s.modeListeners l hN hl hc
  · intro l hl hc e args hmem
    rw [modeEmit] at hmem
    obtain ⟨x, hx, heq⟩ := List.mem_map.mp hmem
    have hids : x.id = l.id := by
      simpa using congrArg (fun eff => (effListenerId eff).getD 0) heq
    have hxmem := List.mem_filter.mp hx
    have hxl : x = l := nodup_listener_eq s.modeListeners hN x hxmem.1 l hl hids
    rw [hxl] at hxmem
    rw [hxmem.2] at hc
    exact Bool.true_eq_false.mp hc

end BF6

namespace BF6

/-! ### The join broadcast of addPlayer -/

theorem emit_count_zero {lp : CorePlayer_APlayer} {t i : Nat}
    {ev e2 : EvtName} {a a2 : List Arg} (hne : t ≠ lp.uid) :
    (lp.emit ev a).count (Eff.pcb t i e2 a2) = 0 := by
  rw [List.count_eq_zero]
  intro hmem
  obtain ⟨lid, heq⟩ := emit_mem_shape hmem
  simp only [Eff.pcb.injEq] at heq
  exact hne heq.1

theorem count_flatMap_zero {t i : Nat} {ev e2 : EvtName} {a a2 : List Arg} :
    ∀ vs : List CorePlayer_APlayer, (∀ x ∈ vs, x.uid ≠ t) →
      (vs.flatMap (fun x => x.emit ev a)).count (Eff.pcb t i e2 a2) = 0 := by
  intro vs
  induction vs with
  | nil => intro _; rfl
  | cons x rest ih =>
      intro hv
      rw [List.flatMap_cons, List.count_append,
        emit_count_zero (fun h => hv x (by simp) h.symm),
        ih (fun y hy => hv y (by simp [hy]))]

theorem valuesOf_cons (e : Nat × Nat) (rest : List (Nat × Nat))
    (heap : List CorePlayer_APlayer) :
    valuesOf (e :: rest) heap =
      match heapGet heap e.2 with
      | some x => x :: valuesOf rest heap
      | none => valuesOf rest heap := by
  rw [valuesOf, List.filterMap_cons]
  cases heapGet heap e.2 <;> rfl

theorem filterMap_congr_mem {α β : Type} {f g : α → Option β} :
    ∀ l : List α, (∀ a ∈ l, f a = g a) → l.filterMap f = l.filterMap g := by
  intro l
  induction l with
  | nil => intro _; rfl
  | cons a as ih =>
      intro h
      rw [List.filterMap_cons, List.filterMap_cons, h a (by simp),
        ih (fun b hb => h b (by simp [hb]))]

theorem valuesOf_mem_uid {entries : List (Nat × Nat)}
    {heap : List CorePlayer_APlayer} {o : CorePlayer_APlayer}
    (ho : o ∈ valuesOf entries heap) :
    ∃ e ∈ entries, heapGet heap e.2 = some o := by
  rw [valuesOf] at ho
  exact List.mem_filterMap.mp ho

theorem heapGet_singleton_ne {lp : CorePlayer_APlayer} {u : Nat}
    (hne : lp.uid ≠ u) : heapGet [lp] u = none := by
  rw [heapGet, List.find?_eq_none]
  intro x hx
  rw [List.mem_singleton] at hx
  subst hx
  simpa using hne

theorem valuesOf_snoc (entries : List (Nat × Nat))
    (heap : List CorePlayer_APlayer) (b n : Nat) (lp : CorePlayer_APlayer)
    (hlp : lp.uid = n) (hEnt : ∀ e ∈ entries, e.2 ≠ n)
    (hheap : heapGet heap n = none) :
    valuesOf (entries ++ [(b, n)]) (heap ++ [lp]) =
      valuesOf entries heap ++ [lp] := by
  rw [valuesOf, List.filterMap_append]
  have hleft : entries.filterMap (fun e => heapGet (heap ++ [lp]) e.2) =
      valuesOf entries heap := by
    rw [valuesOf]
    apply filterMap_congr_mem
    intro e he
    cases hh : heapGet heap e.2 with
    | some x =>
        rw [heapGet, List.find?_append]
        rw [heapGet] at hh
        simp [hh]
    | none =>
        rw [heapGet_append_of_none hh]
        apply heapGet_singleton_ne
        rw [hlp]
        exact (hEnt e he).symm
  have hright : List.filterMap (fun e => heapGet (heap ++ [lp]) e.2)
      [(b, n)] = [lp] := by
    rw [List.filterMap_cons]
    have : heapGet (heap ++ [lp]) n = some lp := by
      rw [heapGet_append_of_none hheap, heapGet, List.find?_cons]
      simp [hlp]
    simp [this]
  rw [hleft, hright]

theorem flatMap_guard_drop {n : Nat} (a : List Arg) :
    ∀ vs : List CorePlayer_APlayer, (∀ o ∈ vs, o.uid ≠ n) →
      vs.flatMap (fun o =>
        if o.uid ≠ n then o.emit EvtName.OnPlayerJoinGame a else []) =
      vs.flatMap (fun o => o.emit EvtName.OnPlayerJoinGame a) := by
  intro vs
  induction vs with
  | nil => intro _; rfl
  | cons x rest ih =>
      intro hv
      rw [List.flatMap_cons, List.flatMap_cons, if_pos (hv x (by simp)),
        ih (fun y hy => hv y (by simp [hy]))]

theorem count_values_one (ev : EvtName) (a : List Arg)
    (heap : List CorePlayer_APlayer)
    (hL : ∀ lp ∈ heap, (lp.listeners.map Listener.id).Nodup) :
    ∀ entries : List (Nat × Nat), (entries.map Prod.snd).Nodup →
      ∀ idu ∈ entries, ∀ o, heapGet heap idu.2 = some o →
      ∀ l ∈ o.listeners, l.caps.contains ev = true →
      ((valuesOf entries heap).flatMap (fun x => x.emit ev a)).count
        (Eff.pcb o.uid l.id ev a) = 1 := by
  intro entries
  induction entries with
  | nil => intro _ idu h; simp at h
  | cons e rest ih =>
      intro hnd idu hidu o ho l hl hc
      rw [List.map_cons, List.nodup_cons] at hnd
      rcases List.mem_cons.mp hidu with rfl | hidu2
      · rw [valuesOf_cons, ho, List.flatMap_cons, List.count_append]
        have hone : (o.emit ev a).count (Eff.pcb o.uid l.id ev a) = 1 := by
          rw [CorePlayer_APlayer.emit]
          exact count_capMap_one (fun i => Eff.pcb o.uid i ev a)
            (fun i j h => by simpa using h) ev o.listeners l
            (hL o (heapGet_mem ho)) hl hc
        have hzero : ((valuesOf rest heap).flatMap
            (fun x => x.emit ev a)).count (Eff.pcb o.uid l.id ev a) = 0 := by
          apply count_flatMap_zero
          intro x hx
          obtain ⟨e2, he2, hget2⟩ := valuesOf_mem_uid hx
          rw [heapGet_uid hget2, heapGet_uid ho]
          intro heq
          exact hnd.1 (heq ▸ List.mem_map_of_mem Prod.snd he2)
        rw [hone, hzero]
      · have houid : o.uid = idu.2 := heapGet_uid ho
        have hne : e.2 ≠ idu.2 := by
          intro heq
          exact hnd.1 (heq ▸ List.mem_map_of_mem Prod.snd hidu2)
        have hrest := ih hnd.2 idu hidu2 o ho l hl hc
        rw [valuesOf_cons]
        cases hhead : heapGet heap e.2 with
        | none => exact hrest
        | some x =>
            rw [List.flatMap_cons, List.count_append, hrest,
              emit_count_zero (t := o.uid)
                (by rw [houid, heapGet_uid hhead]; exact fun h => hne h.symm)]

theorem heapGet_snoc_self {heap : List CorePlayer_APlayer}
    {lp : CorePlayer_APlayer} {n : Nat} (hlp : lp.uid = n)
    (hheap : heapGet heap n = none) :
    heapGet (heap ++ [lp]) n = some lp := by
  rw [heapGet_append_of_none hheap, heapGet, List.find?_cons]
  simp [hlp]

/-- C1.  Join broadcast: when a handle with an unregistered id joins via
`addPlayer`, the new logical player is inserted into the registry first
(the returned state resolves it, and the broadcast below enumerates the
post-insertion registry), and then every *other* currently-registered
logical player's `OnPlayerJoinGame` capability is invoked exactly once
with the new player as argument, while the new player's own subscribers
receive no callback at all during the broadcast (self-notification is
suppressed by the `other !== lp` test).  The hypotheses are the
allocation invariants of reachable states: heap uids and registry-entry
uids are below the allocator, entry uids are pairwise distinct, and each
player's subscriber list has pairwise distinct identities. -/
theorem addPlayer_join_broadcast (newL : Nat → List Listener)
    (s : GameState) (pB : Player)
    (hfresh : ∀ lp ∈ s.heap, lp.uid < s.nextUid)
    (hEnt : ∀ e ∈ s.entries, e.2 < s.nextUid)
    (hUids : (s.entries.map Prod.snd).Nodup)
    (hL : ∀ lp ∈ s.heap, (lp.listeners.map Listener.id).Nodup)
    (hB : mapGet s.entries (GetObjId pB) = none) :
    getById (addPlayer newL s pB).1 (GetObjId pB) =
      some ⟨s.nextUid, GetObjId pB, newL s.nextUid⟩ ∧
    (addPlayer newL s pB).2.1 = s.nextUid ∧
    (addPlayer newL s pB).2.2 =
      (valuesOf s.entries s.heap).flatMap
        (fun o => o.emit EvtName.OnPlayerJoinGame [Arg.lp s.nextUid]) ∧
    (∀ idu ∈ s.entries, ∀ o, heapGet s.heap idu.2 = some o →
       ∀ l ∈ o.listeners, l.caps.contains EvtName.OnPlayerJoinGame = true →
       (addPlayer newL s pB).2.2.count
         (Eff.pcb o.uid l.id EvtName.OnPlayerJoinGame
           [Arg.lp s.nextUid]) = 1) ∧
    (∀ lid e args,
       Eff.pcb s.nextUid lid e args ∉ (addPlayer newL s pB).2.2) := by
  have hfr := addPlayer_fresh newL s pB hB
  have hheapnone : heapGet s.heap s.nextUid = none :=
    heapGet_eq_none_of_bound hfresh
  have hvals : valuesOf (s.entries ++ [(GetObjId pB, s.nextUid)])
      (s.heap ++ [⟨s.nextUid, GetObjId pB, newL s.nextUid⟩]) =
      valuesOf s.entries s.heap ++
        [⟨s.nextUid, GetObjId pB, newL s.nextUid⟩] :=
    valuesOf_snoc s.entries s.heap (GetObjId pB) s.nextUid _ rfl
      (fun e he => Nat.ne_of_lt (hEnt e he)) hheapnone
  have hbound : ∀ o ∈ valuesOf s.entries s.heap, o.uid ≠ s.nextUid := by
    intro o ho
    obtain ⟨e2, he2, hget⟩ := valuesOf_mem_uid ho
    rw [heapGet_uid hget]
    exact Nat.ne_of_lt (hEnt e2 he2)
  have heffs : (addPlayer newL s pB).2.2 =
      (valuesOf s.entries s.heap).flatMap
        (fun o => o.emit EvtName.OnPlayerJoinGame [Arg.lp s.nextUid]) := by
    rw [hfr]
    show (valuesOf (s.entries ++ [(GetObjId pB, s.nextUid)])
        (s.heap ++ [⟨s.nextUid, GetObjId pB, newL s.nextUid⟩])).flatMap
        (fun other =>
          if other.uid ≠ s.nextUid then
            other.emit EvtName.OnPlayerJoinGame [Arg.lp s.nextUid]
          else []) =
      (valuesOf s.entries s.heap).flatMap
        (fun o => o.emit EvtName.OnPlayerJoinGame [Arg.lp s.nextUid])
    rw [hvals, List.flatMap_append]
    have hnew :
        ([(⟨s.nextUid, GetObjId pB, newL s.nextUid⟩ :
            CorePlayer_APlayer)].flatMap
          (fun other =>
            if other.uid ≠ s.nextUid then
              other.emit EvtName.OnPlayerJoinGame [Arg.lp s.nextUid]
            else [])) = [] := by
      simp
    rw [hnew, List.append_nil]
    exact flatMap_guard_drop _ _ hbound
  refine ⟨?_, by rw [hfr], heffs, ?_, ?_⟩
  · rw [hfr]
    show (mapGet (s.entries ++ [(GetObjId pB, s.nextUid)])
        (GetObjId pB)).bind
        (heapGet (s.heap ++ [⟨s.nextUid, GetObjId pB, newL s.nextUid⟩])) =
      some ⟨s.nextUid, GetObjId pB, newL s.nextUid⟩
    rw [mapGet_append_of_none hB]
    have h1 : mapGet [(GetObjId pB, s.nextUid)] (GetObjId pB) =
        some s.nextUid := by
      simp [mapGet_cons]
    rw [h1]
    exact heapGet_snoc_self rfl hheapnone
  · intro idu hidu o ho l hl hc
    rw [heffs]
    exact count_values_one EvtName.OnPlayerJoinGame [Arg.lp s.nextUid]
      s.heap hL s.entries hUids idu hidu o ho l hl hc
  · intro lid e args hmem
    rw [heffs] at hmem
    obtain ⟨o, ho, hin⟩ := List.mem_flatMap.mp hmem
    obtain ⟨lid2, heq⟩ := emit_mem_shape hin
    simp only [Eff.pcb.injEq] at heq
    exact hbound o ho heq.1.symm

end BF6

namespace BF6

/-! ### Sequences of join events -/

theorem newEntries_keys :
    ∀ (ps : List Player) (n : Nat),
      (newEntries n ps).map Prod.fst = ps.map GetObjId := by
  intro ps
  induction ps with
  | nil => intro n; rfl
  | cons p rest ih =>
      intro n
      rw [show newEntries n (p :: rest) =
          (GetObjId p, n) :: newEntries (n + 1) rest from rfl,
        List.map_cons, List.map_cons, ih (n + 1)]

theorem joinAll_fresh (newL : Nat → List Listener) :
    ∀ (ps : List Player) (s : GameState),
      (∀ p ∈ ps, mapGet s.entries (GetObjId p) = none) →
      (ps.map GetObjId).Nodup →
      joinAll newL s ps =
        { s with entries := s.entries ++ newEntries s.nextUid ps,
                 heap := s.heap ++ newLPs newL s.nextUid ps,
                 nextUid := s.nextUid + ps.length } := by
  intro ps
  induction ps with
  | nil =>
      intro s _ _
      simp [joinAll, newEntries, newLPs]
  | cons p rest ih =>
      intro s hfresh hnd
      rw [List.map_cons, List.nodup_cons] at hnd
      have hp : mapGet s.entries (GetObjId p) = none := hfresh p (by simp)
      rw [joinAll, addPlayer_fresh newL s p hp]
      show joinAll newL
          { s with entries := s.entries ++ [(GetObjId p, s.nextUid)],
                   heap := s.heap ++
                     [⟨s.nextUid, GetObjId p, newL s.nextUid⟩],
                   nextUid := s.nextUid + 1 } rest = _
      have hfr2 : ∀ q ∈ rest,
          mapGet (s.entries ++ [(GetObjId p, s.nextUid)])
            (GetObjId q) = none := by
        intro q hq
        rw [mapGet_append_of_none (hfresh q (by simp [hq])), mapGet_eq_none]
        intro e he
        rw [List.mem_singleton] at he
        subst he
        intro heq
        have heq2 : GetObjId p = GetObjId q := heq
        exact hnd.1 (heq2.symm ▸ List.mem_map_of_mem GetObjId hq)
      rw [ih _ hfr2 hnd.2]
      show ({ s with
          entries := (s.entries ++ [(GetObjId p, s.nextUid)]) ++
            newEntries (s.nextUid + 1) rest,
          heap := (s.heap ++ [⟨s.nextUid, GetObjId p, newL s.nextUid⟩]) ++
            newLPs newL (s.nextUid + 1) rest,
          nextUid := (s.nextUid + 1) + rest.length } : GameState) = _
      rw [show newEntries s.nextUid (p :: rest) =
          (GetObjId p, s.nextUid) :: newEntries (s.nextUid + 1) rest from rfl]
      rw [show newLPs newL s.nextUid (p :: rest) =
          ⟨s.nextUid, GetObjId p, newL s.nextUid⟩ ::
            newLPs newL (s.nextUid + 1) rest from rfl]
      rw [List.append_assoc, List.append_assoc, List.singleton_append,
        List.singleton_append, List.length_cons]
      rw [show (s.nextUid + 1) + rest.length =
          s.nextUid + (rest.length + 1) by omega]

theorem mapGet_newEntries :
    ∀ (ps : List Player) (n i : Nat), (h : i < ps.length) →
      (ps.map GetObjId).Nodup →
      mapGet (newEntries n ps) (GetObjId ps[i]) = some (n + i) := by
  intro ps
  induction ps with
  | nil => intro n i h; simp at h
  | cons p rest ih =>
      intro n i h hnd
      rw [List.map_cons, List.nodup_cons] at hnd
      cases i with
      | zero =>
          rw [show newEntries n (p :: rest) =
              (GetObjId p, n) :: newEntries (n + 1) rest from rfl,
            mapGet_cons]
          simp
      | succ j =>
          have hj : j < rest.length := by simpa using h
          have hne : GetObjId p ≠ GetObjId rest[j] := by
            intro heq
            exact hnd.1
              (heq.symm ▸ List.mem_map_of_mem GetObjId (rest.getElem_mem hj))
          rw [List.getElem_cons_succ,
            show newEntries n (p :: rest) =
              (GetObjId p, n) :: newEntries (n + 1) rest from rfl,
            mapGet_cons, if_neg hne, ih (n + 1) j hj hnd.2,
            show (n + 1) + j = n + (j + 1) by omega]

theorem heapGet_newLPs (newL : Nat → List Listener) :
    ∀ (ps : List Player) (n i : Nat), (h : i < ps.length) →
      heapGet (newLPs newL n ps) (n + i) =
        some ⟨n + i, GetObjId ps[i], newL (n + i)⟩ := by
  intro ps
  induction ps with
  | nil => intro n i h; simp at h
  | cons p rest ih =>
      intro n i h
      cases i with
      | zero =>
          rw [show newLPs newL n (p :: rest) =
              ⟨n, GetObjId p, newL n⟩ :: newLPs newL (n + 1) rest from rfl,
            heapGet, List.find?_cons]
          simp
      | succ j =>
          have hj : j < rest.length := by simpa using h
          have hne : ¬((n : Nat) = n + (j + 1)) := by omega
          rw [List.getElem_cons_succ,
            show newLPs newL n (p :: rest) =
              ⟨n, GetObjId p, newL n⟩ :: newLPs newL (n + 1) rest from rfl,
            heapGet, List.find?_cons]
          simp only [hne, decide_eq_true_eq, decide_eq_false_iff_not,
            if_neg, reduceCtorEq]
          rw [show n + (j + 1) = (n + 1) + j by omega, ← heapGet]
          exact ih (n + 1) j hj

/-- C3.  Registry uniqueness: after any sequence of join events with
pairwise-distinct ids (starting from the empty registry), the registry
holds exactly one logical player per distinct id, in join order;
`getById` returns exactly the instance created at that id's join (the
object allocated with identity `i` at the `i`-th join, unchanged); and
`addPlayer` on an id that already has an entry returns the existing
instance with the whole state unchanged. -/
theorem registry_unique_per_id (newL : Nat → List Listener)
    (ps : List Player) (hN : (ps.map GetObjId).Nodup) :
    ((joinAll newL freshMode ps).entries.map Prod.fst = ps.map GetObjId) ∧
    ((joinAll newL freshMode ps).entries.map Prod.fst).Nodup ∧
    (∀ (i : Nat), (h : i < ps.length) →
       getById (joinAll newL freshMode ps) (GetObjId ps[i]) =
         some ⟨i, GetObjId ps[i], newL i⟩) ∧
    (∀ (s : GameState) (p : Player) (u : Nat),
       mapGet s.entries (GetObjId p) = some u →
       addPlayer newL s p = (s, u, [])) := by
  have hall : joinAll newL freshMode ps =
      ⟨true, newEntries 0 ps, newLPs newL 0 ps, [], ps.length⟩ := by
    have h := joinAll_fresh newL ps freshMode (fun p _ => rfl) hN
    rw [h]
    show (⟨true, [] ++ newEntries 0 ps, [] ++ newLPs newL 0 ps, [],
      0 + ps.length⟩ : GameState) = _
    rw [List.nil_append, List.nil_append, Nat.zero_add]
  refine ⟨?_, ?_, ?_, ?_⟩
  · rw [hall]
    exact newEntries_keys ps 0
  · rw [hall]
    show ((newEntries 0 ps).map Prod.fst).Nodup
    rw [newEntries_keys]
    exact hN
  · intro i h
    rw [hall]
    show (mapGet (newEntries 0 ps) (GetObjId ps[i])).bind
        (heapGet (newLPs newL 0 ps)) = some ⟨i, GetObjId ps[i], newL i⟩
    rw [mapGet_newEntries ps 0 i h hN]
    show heapGet (newLPs newL 0 ps) (0 + i) =
      some ⟨i, GetObjId ps[i], newL i⟩
    rw [heapGet_newLPs newL ps 0 i h, Nat.zero_add]
  · intro s p u h
    exact addPlayer_existing h

/-- C9.  Unsubscription during publish is not visible mid-iteration: the
`for...of` loop of `emit` iterates the array captured when the loop
started, while `removeListener` rebinds the field to a new filtered
array; so whatever removals the invoked callbacks perform (`beh`), and
whatever the current value of the field, the invoked subscribers are
exactly those of the snapshot that implement the event, in order — in
particular a subscriber removed during the emit still receives that
emit's event. -/
theorem emit_snapshot_invokes_all (beh : Nat → List Nat) (e : EvtName) :
    ∀ (snapshot field : List Listener),
      (emitRun beh e snapshot field).2 =
        (snapshot.filter (fun l => l.caps.contains e)).map Listener.id := by
  intro snapshot
  induction snapshot with
  | nil => intro field; rfl
  | cons l rest ih =>
      intro field
      by_cases hc : l.caps.contains e
      · have hc2 : e ∈ l.caps := by simpa using hc
        have hstep : (emitRun beh e (l :: rest) field).2 =
            l.id :: (emitRun beh e rest ((beh l.id).foldl
              (fun f rid => f.filter (fun x => x.id ≠ rid)) field)).2 := by
          simp [emitRun, hc2]
        rw [hstep, ih,
          @List.filter_cons_of_pos _ (fun y => y.caps.contains e) l rest hc,
          List.map_cons]
      · have hc2 : ¬e ∈ l.caps := by simpa using hc
        have hstep : (emitRun beh e (l :: rest) field).2 =
            (emitRun beh e rest field).2 := by
          simp [emitRun, hc2]
        rw [hstep, ih,
          @List.filter_cons_of_neg _ (fun y => y.caps.contains e) l rest hc]

end BF6

namespace BF6

/-! ### Concrete witnesses -/

/-- Witness for C1: with player id 1 (object `lpEx`, one join-capable
subscriber) registered and allocator at 1, joining handle id 2 registers
the new object under identity 1, notifies `lpEx`'s subscriber exactly
once with it, and sends nothing to the new player's own subscriber. -/
theorem addPlayer_join_broadcast_witness :
    getById (addPlayer nlEx sEx pEx2).1 (GetObjId pEx2) =
      some ⟨1, GetObjId pEx2, nlEx 1⟩ ∧
    (addPlayer nlEx sEx pEx2).2.2.count
      (Eff.pcb lpEx.uid lEx.id EvtName.OnPlayerJoinGame [Arg.lp 1]) = 1 ∧
    Eff.pcb 1 101 EvtName.OnPlayerJoinGame [Arg.lp 1] ∉
      (addPlayer nlEx sEx pEx2).2.2 := by
  have h := addPlayer_join_broadcast nlEx sEx pEx2 (by decide) (by decide)
    (by decide) (by decide) (by decide)
  exact ⟨h.1, h.2.2.2.1 (1, 0) (by decide) lpEx (by decide) lEx (by decide)
    (by decide), h.2.2.2.2 101 EvtName.OnPlayerJoinGame [Arg.lp 1]⟩

/-- Witness for C2: with the manager created, a deploy event for an
invalid handle is dropped with no state change and no exception. -/
theorem singleEntry_dropped_safe_witness :
    singleEntry EvtName.OnPlayerDeployed [] sEx ⟨9, false⟩ =
      some (sEx, []) :=
  singleEntry_dropped_safe.1 EvtName.OnPlayerDeployed [] sEx ⟨9, false⟩
    (by decide) (by decide)

/-- Witness for C3: after joins with ids 1 then 2, lookup of id 2 returns
the instance created at the second join. -/
theorem registry_unique_per_id_witness :
    getById (joinAll nlNil freshMode psEx) 2 = some ⟨1, 2, []⟩ := by
  have h := (registry_unique_per_id nlNil psEx (by decide)).2.2.1 1
    (by decide)
  exact h

/-- Witness for C4: a deploy event for the registered handle id 1 emits to
the player's subscribers first and runs the hook last, and the per-player
tick entry shows the same order through `playerManager.tick`. -/
theorem pm_update_before_hook_witness :
    (singleEntry EvtName.OnPlayerDeployed [] sEx ⟨1, true⟩ =
      some (sEx, lpEx.emit EvtName.OnPlayerDeployed [] ++
        [Eff.hook EvtName.OnPlayerDeployed [Arg.lp lpEx.uid]])) ∧
    (internalOngoingPlayer sEx ⟨1, true⟩ =
      some (sEx, lpEx.emit EvtName.OngoingPlayer [] ++
        [Eff.hook EvtName.OngoingPlayer [Arg.lp lpEx.uid]])) :=
  ⟨(pm_update_before_hook.1 EvtName.OnPlayerDeployed [] sEx ⟨1, true⟩ lpEx
      (by decide) (by decide)).1,
   (pm_update_before_hook.2.2.1 sEx ⟨1, true⟩ lpEx
      (by decide) (by decide)).1⟩

/-- Witness for C5: damage with actor id 1 registered and other id 2
never joined is dispatched with the absent marker, not dropped. -/
theorem twoEntry_actor_required_other_optional_witness :
    twoEntry EvtName.OnPlayerDamaged [Arg.nat 5, Arg.nat 7] sEx
      ⟨1, true⟩ pEx2 =
      some (sEx, lpEx.emit EvtName.OnPlayerDamaged
          (Arg.optLp none :: [Arg.nat 5, Arg.nat 7]) ++
        [Eff.hook EvtName.OnPlayerDamaged (Arg.lp lpEx.uid ::
          Arg.optLp none :: [Arg.nat 5, Arg.nat 7])]) :=
  twoEntry_actor_required_other_optional.2 EvtName.OnPlayerDamaged
    [Arg.nat 5, Arg.nat 7] sEx ⟨1, true⟩ pEx2 lpEx (by decide) (by decide)
    (by decide)

/-- Witness for C6: a leave event for registered id 1 invokes the leave
hook with the pre-removal object and removes the entry. -/
theorem leave_hook_before_remove_witness :
    internalOnPlayerLeaveGame sEx 1 =
      some (removePlayer sEx 1,
        [Eff.hook EvtName.OnPlayerLeaveGame [Arg.lp lpEx.uid]]) :=
  (leave_hook_before_remove sEx 1 (by decide)).1 lpEx (by decide)

/-- Witness for C7: with two implementing observers and one
non-implementing observer on the bus, the tick fans out before the hook
and observer 10 is invoked exactly once. -/
theorem ongoingGlobal_fanout_witness :
    internalOngoingGlobal sBus =
      some (sBus, modeEmit sBus EvtName.OngoingGlobal [] ++
        [Eff.hook EvtName.OngoingGlobal []]) ∧
    (modeEmit sBus EvtName.OngoingGlobal []).count
      (Eff.mcb 10 EvtName.OngoingGlobal []) = 1 := by
  have h := ongoingGlobal_fanout sBus (by decide)
  exact ⟨h.1, h.2.2.1 ⟨10, [EvtName.OngoingGlobal]⟩ (by decide) (by decide)⟩

/-- Witness for C8: removing registered id 1 empties `lpEx`'s listener
list and deletes the entry. -/
theorem removePlayer_detach_idempotent_witness :
    mapGet (removePlayer sEx 1).entries 1 = none ∧
    heapGet (removePlayer sEx 1).heap 0 =
      some { lpEx with listeners := [] } :=
  removePlayer_detach_idempotent.1 sEx 1 0 lpEx (by decide) (by decide)

/-- Witness for C10: a second join of id 1 returns the existing object
identity 0 with the state unchanged and no notifications. -/
theorem addPlayer_duplicate_noop_witness :
    addPlayer nlEx sEx ⟨1, true⟩ = (sEx, 0, []) :=
  addPlayer_duplicate_noop nlEx sEx ⟨1, true⟩ 0 (by decide)

end BF6
